import Mathlib

/-!
Verification of the conversation-engine core of the gemini-cli repository.

The definitions below are a shallow embedding, in Lean, of the TypeScript
source: the chat-session module (history validation, curated-history
extraction, history recording/consolidation, the streaming send loop, retry
classification and the Flash-model fallback) together with the planning
tool.  Stateful methods are embedded as explicit state-passing functions on
the history, JS exceptions become `Except`/`Option` results, and JS objects
with optional fields become structures of `Option` fields.  A handful of
collaborators whose sources are not part of the snapshot (the generic
retry helper, the message inspector, two string constants and the
sub-agent termination enumeration) are modelled from the specification and
are marked as such in their doc comments.
-/

namespace GeminiCli

/--
One content fragment of a turn.  Embeds the `Part` record of the genai API
as used by the code: the `text` and `thought` keys are inspected directly;
`functionCall`, `functionResponse` and `inlineData` stand for the remaining
possible keys (their payloads are opaque strings).  A key is present on the
JS object exactly when the corresponding field is `some`.
-/
structure Part where
  text : Option String := none
  thought : Option Bool := none
  functionCall : Option String := none
  functionResponse : Option String := none
  inlineData : Option String := none
deriving DecidableEq, Repr

/-- Number of keys present on the JS object (`Object.keys(part).length`). -/
def partKeyCount (p : Part) : Nat :=
  (if p.text.isSome then 1 else 0) + (if p.thought.isSome then 1 else 0) +
    (if p.functionCall.isSome then 1 else 0) +
    (if p.functionResponse.isSome then 1 else 0) +
    (if p.inlineData.isSome then 1 else 0)

/-- One turn (`Content` of the genai API): an optional role and an optional
list of parts, both optional keys on the JS object. -/
structure Content where
  role : Option String := none
  parts : Option (List Part) := none
deriving DecidableEq, Repr

/-- Per-part check of `isValidContent`'s loop body: a part fails if it has no
keys, or if it is a non-thought part whose `text` key holds the empty
string. -/
def isValidPart (p : Part) : Bool :=
  !(partKeyCount p == 0) && !(!(p.thought.getD false) && p.text == some "")

/-- `isValidContent` from the chat module: parts must be present, non-empty,
and every part must pass `isValidPart`. -/
def isValidContent (c : Content) : Bool :=
  match c.parts with
  | none => false
  | some parts => !parts.isEmpty && parts.all isValidPart

/-- `validateHistory`: throws on the first turn whose role is neither
`user` nor `model` (the source interpolates the offending role into the
message; the embedding uses a fixed message). -/
def validateHistory : List Content → Except String Unit
  | [] => .ok ()
  | c :: t =>
      if c.role = some "user" ∨ c.role = some "model" then validateHistory t
      else .error "Role must be user or model."

/--
`extractCuratedHistory`.  The JS `while` loop pushes a `user` turn and
advances, or collects the maximal run of consecutive `model` turns and
keeps the whole run only when every turn in it passes `isValidContent`.
For a turn whose role is neither `user` nor `model` the inner `while`
collects nothing and the outer loop never advances `i`, so the JS function
diverges; the embedding returns `none` for that case.
-/
def extractCuratedHistory : List Content → Option (List Content)
  | [] => some []
  | c :: t =>
      if c.role = some "user" then
        (extractCuratedHistory t).map (fun l => c :: l)
      else if c.role = some "model" then
        let run := c :: t.takeWhile (fun x => x.role == some "model")
        let rest := t.dropWhile (fun x => x.role == some "model")
        (extractCuratedHistory rest).map
          (fun l => (if run.all isValidContent then run else []) ++ l)
      else none
termination_by l => l.length
decreasing_by
  · simp only [List.length_cons]
    omega
  · simp only [List.length_cons]
    have h : ∀ L : List Content,
        (L.dropWhile (fun x => x.role == some "model")).length ≤ L.length := by
      intro L
      induction L with
      | nil => simp [List.dropWhile]
      | cons a L ih =>
        rw [List.dropWhile_cons]
        split
        · simp
          omega
        · simp
    have := h t
    omega

/-- Role test used throughout: the turn's role is `user` or `model`. -/
def roleOk (c : Content) : Bool :=
  c.role == some "user" || c.role == some "model"

/-- `GeminiChat.isTextContent`: the argument may be `undefined` (here
`none`); otherwise it must be a `model` turn whose first part carries a
non-empty string under its `text` key. -/
def isTextContent : Option Content → Bool
  | none => false
  | some c =>
      c.role == some "model" &&
        (match c.parts with
         | some (p :: _) => (match p.text with
                             | some s => !(s == "")
                             | none => false)
         | _ => false)

/-- `GeminiChat.isThoughtContent`: a `model` turn whose first part has a
boolean `thought` key equal to `true`. -/
def isThoughtContent : Option Content → Bool
  | none => false
  | some c =>
      c.role == some "model" &&
        (match c.parts with
         | some (p :: _) => p.thought == some true
         | _ => false)

/-- Modelled from the spec: `isFunctionResponse` lives in
`utils/messageInspectors.ts`, which is not part of the source snapshot.
Spec §3 gives the `functionResponse` Part variant and §4.1 speaks of "the
user input was not itself a function response": a user turn all of whose
(non-empty) parts carry the functionResponse variant. -/
def isFunctionResponse (c : Content) : Bool :=
  c.role == some "user" && !(c.parts.getD []).isEmpty &&
    (c.parts.getD []).all (fun p => p.functionResponse.isSome)

/-- The merge step of `recordHistory`'s consolidation: append the incoming
turn's first-part text to the accumulated turn's first-part text
(`lastContent.parts[0].text += content.parts[0].text || ''`) and append the
incoming turn's remaining parts at the end of the accumulated part list.
Both arguments satisfy `isTextContent` where this is invoked. -/
def appendTextToFirst (lastC c : Content) : Content :=
  match lastC.parts, c.parts with
  | some (p :: ps), some (q :: qs) =>
      { lastC with
        parts := some ({ p with text := some (p.text.getD "" ++ q.text.getD "") } :: (ps ++ qs)) }
  | _, _ => lastC

/-- One iteration of the "Consolidate adjacent model roles in
outputContents" loop of `recordHistory`: thought turns are skipped; an
incoming text turn is merged into a trailing text turn, otherwise the turn
is pushed. -/
def consolidateStep (acc : List Content) (content : Content) : List Content :=
  if isThoughtContent (some content) then acc
  else
    match acc.getLast? with
    | some lastC =>
        if isTextContent (some lastC) && isTextContent (some content) then
          acc.dropLast ++ [appendTextToFirst lastC content]
        else acc ++ [content]
    | none => acc ++ [content]

/-- The consolidation loop of `recordHistory`. -/
def consolidate (outputContents : List Content) : List Content :=
  outputContents.foldl consolidateStep []

/--
`GeminiChat.recordHistory`, as a function from the history before the call
to the history after it.  `afc` is the optional
`automaticFunctionCallingHistory` argument.  The result is `none` exactly
when the JS code would diverge (only possible through
`extractCuratedHistory` on an `afc` entry with a foreign role).
-/
def recordHistory (history : List Content) (userInput : Content)
    (modelOutput : List Content) (afc : Option (List Content)) :
    Option (List Content) :=
  let nonThoughtModelOutput :=
    modelOutput.filter (fun c => !isThoughtContent (some c))
  let outputContents : List Content :=
    if !nonThoughtModelOutput.isEmpty &&
        nonThoughtModelOutput.all (fun c => c.role.isSome) then
      nonThoughtModelOutput
    else if nonThoughtModelOutput.isEmpty && !modelOutput.isEmpty then
      -- the model returned only a thought: no model turn is recorded
      []
    else if !isFunctionResponse userInput then
      -- empty model output on a non-function-response input: placeholder
      [{ role := some "model", parts := some [] }]
    else []
  let baseO : Option (List Content) :=
    match afc with
    | some l =>
        if !l.isEmpty then
          (extractCuratedHistory l).map (fun cur => history ++ cur)
        else some (history ++ [userInput])
    | none => some (history ++ [userInput])
  match baseO with
  | none => none
  | some base =>
      let consolidated := consolidate outputContents
      if consolidated.isEmpty then some base
      else
        let canMergeWithLastHistory :=
          match afc with
          | none => true
          | some l => l.isEmpty
        match base.getLast?, consolidated with
        | some lastE, c0 :: ctail =>
            if canMergeWithLastHistory && isTextContent (some lastE) &&
                isTextContent (some c0) then
              some (base.dropLast ++ [appendTextToFirst lastE c0] ++ ctail)
            else some (base ++ consolidated)
        | _, _ => some (base ++ consolidated)

/-- A candidate of a model response (`content` is an optional key). -/
structure Candidate where
  content : Option Content := none
deriving DecidableEq, Repr

/-- A `GenerateContentResponse` chunk: an optional candidate list. -/
structure GenResponse where
  candidates : Option (List Candidate) := none
deriving DecidableEq, Repr

/-- `isValidResponse`: candidates present and non-empty, first candidate's
content present and valid. -/
def isValidResponse (r : GenResponse) : Bool :=
  match r.candidates with
  | none => false
  | some [] => false
  | some (cand :: _) =>
      match cand.content with
      | none => false
      | some ct => isValidContent ct

/-- The parts pushed for one (valid) chunk:
`chunk.candidates?.[0]?.content`, then `content?.parts`. -/
def chunkParts (r : GenResponse) : List Part :=
  match r.candidates with
  | some (cand :: _) =>
      match cand.content with
      | some ct => ct.parts.getD []
      | none => []
  | _ => []

/--
`GeminiChat.processStreamResponse`, as a function of the history at drain
time and the fully drained chunk sequence.  Every chunk is yielded to the
caller as it arrives; after the drain, if any chunk was invalid an
`EmptyStreamError` is thrown (`.error`) and the history is untouched,
otherwise the assembled model turn is pushed.
-/
def processStreamResponse (history : List Content)
    (chunks : List GenResponse) : Except String (List Content) :=
  let modelResponseParts :=
    chunks.foldl
      (fun acc ch => if isValidResponse ch then acc ++ chunkParts ch else acc) []
  let isStreamInvalid := chunks.any (fun ch => !isValidResponse ch)
  if isStreamInvalid then .error "Model stream had invalid chunks"
  else .ok (history ++ [{ role := some "model", parts := some modelResponseParts }])

/-- Character-list version of `String.startsWith` for the substring scan. -/
def startsWithChars : List Char → List Char → Bool
  | [], _ => true
  | _ :: _, [] => false
  | a :: p, b :: s => a == b && startsWithChars p s

/-- Character-list substring test (JS `String.prototype.includes`). -/
def containsSub (s sub : List Char) : Bool :=
  startsWithChars sub s ||
    match s with
    | [] => false
    | _ :: t => containsSub t sub

/-- JS `message.includes(pat)`. -/
def strIncludes (s pat : String) : Bool :=
  containsSub s.data pat.data

/-- JS `message.match(/5\d\x7b2\x7d/)`: some position holds a `5` followed
by two decimal digits. -/
def has5xxChars : List Char → Bool
  | c1 :: c2 :: c3 :: rest =>
      (c1 == '5' && c2.isDigit && c3.isDigit) || has5xxChars (c2 :: c3 :: rest)
  | _ => false

/-- 5xx pattern test on a message string. -/
def has5xx (s : String) : Bool :=
  has5xxChars s.data

/-- `isSchemaDepthError` (exported from the chat module). -/
def isSchemaDepthError (errorMessage : String) : Bool :=
  strIncludes errorMessage "maximum schema depth exceeded"

/-- `isInvalidArgumentError` (exported from the chat module). -/
def isInvalidArgumentError (errorMessage : String) : Bool :=
  strIncludes errorMessage "Request contains an invalid argument"

/-- The `shouldRetry` classifier passed to `retryWithBackoff` by
`GeminiChat.sendMessage`: only errors with a (truthy) message are
considered; schema-depth errors are never retried; otherwise a message
containing `429` or matching the 5xx pattern is retried and everything
else is not. -/
def shouldRetrySendMessage (msg : String) : Bool :=
  if msg == "" then false
  else if isSchemaDepthError msg then false
  else if strIncludes msg "429" then true
  else if has5xx msg then true
  else false

instance [DecidableEq ε] [DecidableEq α] : DecidableEq (Except ε α) := fun x y =>
  match x, y with
  | .ok a, .ok b =>
      if h : a = b then isTrue (by rw [h])
      else isFalse (fun he => by cases he; exact h rfl)
  | .error a, .error b =>
      if h : a = b then isTrue (by rw [h])
      else isFalse (fun he => by cases he; exact h rfl)
  | .ok _, .error _ => isFalse (fun he => by cases he)
  | .error _, .ok _ => isFalse (fun he => by cases he)

/-- Outcome of a (modelled) `retryWithBackoff` run: the final result, how
many calls were issued, and the sleeps performed between attempts. -/
structure RetryOutcome (α : Type) where
  result : Except String α
  calls : Nat
  delays : List Nat
deriving DecidableEq, Repr

/-- Recursion for `retryWithBackoff`: `results i` is the outcome the
content generator would give to the `i`-th call; `fuel` is the number of
attempts still allowed. -/
def retryAux (pred : String → Bool) (results : Nat → Except String α) :
    Nat → Nat → Nat → List Nat → RetryOutcome α
  | 0, _, _, delays => ⟨.error "retry: no attempts allowed", 0, delays⟩
  | fuel + 1, i, delay, delays =>
      match results i with
      | .ok a => ⟨.ok a, i + 1, delays⟩
      | .error e =>
          if pred e && !(fuel == 0) then
            retryAux pred results fuel (i + 1) (delay * 2) (delays ++ [delay])
          else ⟨.error e, i + 1, delays⟩

/-- Modelled from the spec: `retryWithBackoff` is imported from
`utils/retry.ts`, which is not part of the source snapshot.  Spec §4.1:
"retry with exponential backoff (attempt cap, e.g. 2-5, doubling delay) if
the error is HTTP 429 or 5xx and not a schema depth exceeded condition";
exhaustion surfaces the last underlying error (§7). -/
def retryWithBackoff (pred : String → Bool) (maxAttempts initialDelay : Nat)
    (results : Nat → Except String α) : RetryOutcome α :=
  retryAux pred results maxAttempts 0 initialDelay []

/-- One streaming attempt as seen from `sendMessageStream`'s `try` block:
the awaited network call either throws (with a message) or resolves, in
which case the (still lazy, undrained) chunk sequence is produced. -/
inductive StreamAttempt where
  | netErr (msg : String)
  | netOk (chunks : List GenResponse)
deriving DecidableEq, Repr

/-- Result of a `sendMessageStream` call: the history as left by the call,
the raised error or the returned (undrained) stream, the number of network
calls made, and the backoff sleeps performed. -/
structure StreamSendResult where
  history : List Content
  result : Except String (List GenResponse)
  apiCalls : Nat
  sleeps : List Nat
deriving DecidableEq, Repr

/-- The retry `for` loop of `sendMessageStream` (`MAX_RETRIES = 2`).
`attempts i` is what the `i`-th awaited network call does.  Note that the
`error instanceof EmptyStreamError` arm of the source is dead at this
point: `processStreamResponse` is an async generator, so its body (and
hence `EmptyStreamError`) only runs while the caller drains the stream,
after the loop has already returned it; the only errors reaching this
`catch` are errors of the awaited network call. -/
def sendStreamAux (attempts : Nat → StreamAttempt) :
    Nat → Nat → List Nat → Except String (List GenResponse) × Nat × List Nat
  | 0, _, sleeps => (.error "Request failed after all retries.", 0, sleeps)
  | fuel + 1, attempt, sleeps =>
      match attempts attempt with
      | .netOk chunks => (.ok chunks, 1, sleeps)
      | .netErr msg =>
          let isRetryableNetworkError := strIncludes msg "429" || has5xx msg
          let isContentError := false
          if (isRetryableNetworkError || isContentError) && attempt < 2 then
            let r := sendStreamAux attempts fuel (attempt + 1)
              (sleeps ++ [500 * (attempt + 1)])
            (r.1, r.2.1 + 1, r.2.2)
          else (.error msg, 1, sleeps)

/-- `GeminiChat.sendMessageStream` as a function of the history before the
call: the user turn is pushed once, before any attempt; on success the
lazy stream is returned with the optimistic user turn still in place; if
the loop exits by an error, the optimistic user turn is popped (it is
always the last entry at that point) and the last error is raised. -/
def sendMessageStream (history : List Content) (user : Content)
    (attempts : Nat → StreamAttempt) : StreamSendResult :=
  let hist := history ++ [user]
  let r := sendStreamAux attempts 3 0 []
  match r.1 with
  | .ok chunks => ⟨hist, .ok chunks, r.2.1, r.2.2⟩
  | .error msg =>
      let hist2 := if hist.getLast? = some user then hist.dropLast else hist
      ⟨hist2, .error msg, r.2.1, r.2.2⟩

/-- Modelled from the spec: `AuthType.LOGIN_WITH_GOOGLE` comes from
`contentGenerator.ts`, which is not part of the source snapshot; it is the
distinguished identifier of the interactive Google login flow (§4.1). -/
def loginWithGoogle : String := "oauth-personal"

/-- Modelled from the spec: `DEFAULT_GEMINI_FLASH_MODEL` comes from
`config/models.ts`, which is not part of the source snapshot; it is the
identifier of the smaller fallback model (§4.1, §6). -/
def DEFAULT_GEMINI_FLASH_MODEL : String := "gemini-2.5-flash"

/-- The slice of the `Config` collaborator the chat module reads and
writes: the session's model and the fallback-mode flag. -/
structure ConfigState where
  model : String
  fallbackMode : Bool
deriving DecidableEq, Repr

/-- What a call to the pluggable fallback handler does: return a string, a
boolean or null, or throw.  Per the spec's collaborator contract (§6) the
handler is value-returning: `(currentModel, fallbackModel, lastError) ->
accepted-model-id | false | null`. -/
inductive HandlerRet where
  | str (s : String)
  | boolean (b : Bool)
  | nullv
  | threw
deriving DecidableEq, Repr

/-- `GeminiChat.handleFlashFallback`: only OAuth (interactive Google
login) sessions are considered; no fallback is offered when the session is
already on the Flash model; an accepting handler (any value other than
`false`/`null`) permanently switches the config to the Flash model; a
throwing handler is caught and declines. -/
def handleFlashFallback (authType : Option String)
    (handler : Option (String → String → HandlerRet)) (cfg : ConfigState) :
    Option String × ConfigState :=
  if ¬(authType = some loginWithGoogle) then (none, cfg)
  else
    let currentModel := cfg.model
    let fallbackModel := DEFAULT_GEMINI_FLASH_MODEL
    if currentModel == fallbackModel then (none, cfg)
    else
      match handler with
      | some f =>
          match f currentModel fallbackModel with
          | .threw => (none, cfg)
          | r =>
              if ¬(r = .boolean false) ∧ ¬(r = .nullv) then
                (some fallbackModel,
                  { cfg with model := fallbackModel, fallbackMode := true })
              else if cfg.model == fallbackModel then (none, cfg)
                -- manual-switch re-check; a value-returning handler leaves
                -- the config unchanged, so this coincides with the arm below
              else (none, cfg)
      | none => (none, cfg)

/-- The session state owned by a `GeminiChat` instance. -/
structure GeminiChatState where
  history : List Content
deriving DecidableEq, Repr

/-- The `GeminiChat` constructor: `validateHistory` runs on the initial
history and its error propagates. -/
def mkGeminiChat (history : List Content) : Except String GeminiChatState :=
  match validateHistory history with
  | .ok _ => .ok ⟨history⟩
  | .error e => .error e

/-- `GeminiChat.clearHistory`. -/
def clearHistory (_s : GeminiChatState) : GeminiChatState := ⟨[]⟩

/-- `GeminiChat.addHistory`. -/
def addHistory (s : GeminiChatState) (c : Content) : GeminiChatState :=
  ⟨s.history ++ [c]⟩

/-- `GeminiChat.setHistory`. -/
def setHistory (_s : GeminiChatState) (h : List Content) : GeminiChatState :=
  ⟨h⟩

/-- Modelled from the spec: `SubagentTerminateMode` comes from
`core/subagent.ts`, which is not part of the source snapshot; §4.3 gives
the closed enumeration `GOAL | MAX_TURNS | TIMEOUT | ERROR | ABORTED`. -/
inductive SubagentTerminateMode where
  | goal
  | maxTurns
  | timeout
  | err
  | aborted
deriving DecidableEq, Repr

/-- The sub-agent's terminal output record (spec §3): a termination reason
and the emitted name-to-string mapping. -/
structure SubagentOutput where
  terminate_reason : SubagentTerminateMode
  emitted_vars : List (String × String)
deriving DecidableEq, Repr

/-- JS property lookup on the `emitted_vars` mapping. -/
def lookupVar (k : String) : List (String × String) → Option String
  | [] => none
  | (k', v) :: t => if k' == k then some v else lookupVar k t

/-- `PlanningTool.createPlan`, as a function of how the sub-agent run went
(`run` is `.error` when `SubAgentScope.create`/`runNonInteractive` threw,
which `createPlan` catches and turns into `null`).  On a `GOAL`
termination the emitted `execution_plan` is returned, with JS
`s || null` coercing the empty string to `null`. -/
def createPlanModel (run : Except String SubagentOutput) : Option String :=
  match run with
  | .error _ => none
  | .ok out =>
      if out.terminate_reason = .goal then
        match lookupVar "execution_plan" out.emitted_vars with
        | some s => if s == "" then none else some s
        | none => none
      else none

/-- The observable fields of `PlanningTool.execute`'s `ToolResult`: the
display string and the single `functionResponse` item of `llmContent`
(name, `success` flag, parsed plan or error string). -/
structure PlanToolResult (J : Type) where
  returnDisplay : String
  responseName : String
  responseSuccess : Bool
  responsePlan : Option J
  responseError : Option String
deriving DecidableEq, Repr

/-- `PlanningTool.execute`.  `parse` and `pretty` stand for `JSON.parse`
(throwing becomes `none`) and `JSON.stringify(-, null, 2)`; the function
is total, so a parse failure never escapes as an exception. -/
def planningExecute (parse : String → Option J) (pretty : J → String)
    (run : Except String SubagentOutput) : PlanToolResult J :=
  let failureMessage := "Failed to create a plan."
  match createPlanModel run with
  | none =>
      ⟨failureMessage, "planning_tool", false, none, some failureMessage⟩
  | some plan =>
      match parse plan with
      | some parsedPlan =>
          ⟨pretty parsedPlan, "planning_tool", true, some parsedPlan, none⟩
      | none =>
          ⟨plan, "planning_tool", false, none, some "Invalid JSON response"⟩

/-! ### Definitions following the specification's words

`isValidContentSpec`, `roleRuns` and `curatedSpec` below are written from
the spec's description of the curated history ("every user turn, and every
maximal run of consecutive model turns only if none of them is invalid"),
to be compared against the source-derived `extractCuratedHistory`. -/

/-- From the spec's words: a model turn is invalid iff it has zero parts,
or any part is wholly empty (no keys), or any non-thought text part equals
the empty string; this is the complement, validity. -/
def isValidContentSpec (c : Content) : Bool :=
  let parts := c.parts.getD []
  !(parts.length == 0) &&
    parts.all (fun p => !(partKeyCount p == 0)) &&
    parts.all (fun p => !(p.thought.getD false == false && p.text == some ""))

/-- The maximal runs of consecutive same-role turns of a history. -/
def roleRuns : List Content → List (List Content)
  | [] => []
  | c :: t =>
      (c :: t.takeWhile (fun x => x.role == c.role)) ::
        roleRuns (t.dropWhile (fun x => x.role == c.role))
termination_by l => l.length
decreasing_by
  simp only [List.length_cons]
  have h : ∀ L : List Content,
      (L.dropWhile (fun x => x.role == c.role)).length ≤ L.length := by
    intro L
    induction L with
    | nil => simp [List.dropWhile]
    | cons a L ih =>
      rw [List.dropWhile_cons]
      split
      · simp
        omega
      · simp
  have := h t
  omega

/-- From the spec's words: a maximal run of model turns is kept only when
every turn in it is valid; any other (user) run is kept whole. -/
def keepRun (run : List Content) : List Content :=
  if run.all (fun c => c.role == some "model") then
    if run.all isValidContentSpec then run else []
  else run

/-- The curated history as the spec describes it: the kept runs, in their
original order. -/
def curatedSpec (h : List Content) : List Content :=
  (roleRuns h).foldr (fun run acc => keepRun run ++ acc) []

/-- Strict role alternation, starting (when `expectUser`) with a user
turn. -/
def alternatesRoles (expectUser : Bool) : List Content → Bool
  | [] => true
  | c :: t =>
      (c.role == some (if expectUser then "user" else "model")) &&
        alternatesRoles (!expectUser) t

/-- No turn at position 0 with role `model`. -/
def headIsUserOrNil : List Content → Bool
  | [] => true
  | c :: _ => !(c.role == some "model")

/-- No two consecutive turns share a role. -/
def noTwoAdjacentSameRole : List Content → Bool
  | a :: b :: t => !(a.role == b.role) && noTwoAdjacentSameRole (b :: t)
  | _ => true

/-- No two consecutive `model` turns. -/
def noTwoModel : List Content → Bool
  | a :: b :: t =>
      !(a.role == some "model" && b.role == some "model") && noTwoModel (b :: t)
  | _ => true

/-! ### Concrete fixtures used to instantiate the theorems -/

/-- A part carrying only a `text` key. -/
def textPart (s : String) : Part := { text := some s }

/-- A pure-text model turn: a single non-thought text part. -/
def textTurn (s : String) : Content :=
  { role := some "model", parts := some [textPart s] }

/-- A plain user turn with one text part. -/
def userTextTurn (s : String) : Content :=
  { role := some "user", parts := some [textPart s] }

/-- Concatenation of a list of strings, in order. -/
def concatAll : List String → String
  | [] => ""
  | s :: t => s ++ concatAll t

/-! ### Helper lemmas -/

theorem length_dropWhile_le' (p : α → Bool) (l : List α) :
    (l.dropWhile p).length ≤ l.length := by
  induction l with
  | nil => simp [List.dropWhile]
  | cons a l ih =>
    rw [List.dropWhile_cons]
    split
    · simp
      omega
    · simp

theorem mem_of_mem_dropWhile (p : α → Bool) (l : List α) (x : α)
    (h : x ∈ l.dropWhile p) : x ∈ l := by
  induction l with
  | nil => simpa [List.dropWhile] using h
  | cons a l ih =>
    rw [List.dropWhile_cons] at h
    by_cases hp : p a
    · rw [if_pos hp] at h
      exact List.mem_cons_of_mem a (ih h)
    · rw [if_neg hp] at h
      exact h

theorem takeWhile_append_all (p : α → Bool) (l r : List α)
    (h : ∀ x ∈ l, p x = true) : (l ++ r).takeWhile p = l ++ r.takeWhile p := by
  induction l with
  | nil => simp
  | cons a l ih =>
    have ha := h a (List.mem_cons_self a l)
    simp only [List.cons_append, List.takeWhile_cons, ha, if_true]
    rw [ih (fun x hx => h x (List.mem_cons_of_mem a hx))]

theorem dropWhile_append_all (p : α → Bool) (l r : List α)
    (h : ∀ x ∈ l, p x = true) : (l ++ r).dropWhile p = r.dropWhile p := by
  induction l with
  | nil => simp
  | cons a l ih =>
    have ha := h a (List.mem_cons_self a l)
    simp only [List.cons_append, List.dropWhile_cons, ha, if_true]
    exact ih (fun x hx => h x (List.mem_cons_of_mem a hx))

theorem takeWhile_head_false (p : α → Bool) (l : List α)
    (h : ∀ x ∈ l.head?, p x = false) : l.takeWhile p = [] := by
  cases l with
  | nil => rfl
  | cons a l =>
    have := h a (by simp)
    simp [List.takeWhile_cons, this]

theorem dropWhile_head_false (p : α → Bool) (l : List α)
    (h : ∀ x ∈ l.head?, p x = false) : l.dropWhile p = l := by
  cases l with
  | nil => rfl
  | cons a l =>
    have := h a (by simp)
    simp [List.dropWhile_cons, this]

theorem string_append_ne_empty (s t : String) (hs : ¬ s = "") :
    ¬ (s ++ t) = "" := by
  intro h
  apply hs
  have h2 : s.data ++ t.data = [] := by
    have := congrArg String.data h
    simpa [String.data_append] using this
  have h3 : s.data = [] := (List.append_eq_nil.mp h2).1
  cases s
  simp_all

theorem extract_nil : extractCuratedHistory [] = some [] := by
  simp [extractCuratedHistory]

theorem extract_user_cons (c : Content) (t : List Content)
    (h : c.role = some "user") :
    extractCuratedHistory (c :: t) =
      (extractCuratedHistory t).map (fun l => c :: l) := by
  rw [extractCuratedHistory]
  simp [h]

theorem extract_model_cons (c : Content) (t : List Content)
    (h : c.role = some "model") :
    extractCuratedHistory (c :: t) =
      (extractCuratedHistory (t.dropWhile (fun x => x.role == some "model"))).map
        (fun l =>
          (if (c :: t.takeWhile (fun x => x.role == some "model")).all isValidContent
           then c :: t.takeWhile (fun x => x.role == some "model")
           else []) ++ l) := by
  rw [extractCuratedHistory]
  simp [h]

theorem roleRuns_cons (c : Content) (t : List Content) :
    roleRuns (c :: t) =
      (c :: t.takeWhile (fun x => x.role == c.role)) ::
        roleRuns (t.dropWhile (fun x => x.role == c.role)) := by
  rw [roleRuns]

theorem curatedSpec_nil : curatedSpec [] = [] := by
  simp [curatedSpec, roleRuns]

theorem curatedSpec_cons (c : Content) (t : List Content) :
    curatedSpec (c :: t) =
      keepRun (c :: t.takeWhile (fun x => x.role == c.role)) ++
        curatedSpec (t.dropWhile (fun x => x.role == c.role)) := by
  rw [curatedSpec, roleRuns_cons]
  rfl

theorem roleOk_iff (c : Content) :
    roleOk c = true ↔ (c.role = some "user" ∨ c.role = some "model") := by
  simp [roleOk]

theorem validateHistory_ok_iff (h : List Content) :
    validateHistory h = .ok () ↔ ∀ x ∈ h, roleOk x = true := by
  induction h with
  | nil => simp [validateHistory]
  | cons c t ih =>
    rw [validateHistory]
    by_cases hc : c.role = some "user" ∨ c.role = some "model"
    · rw [if_pos hc]
      simp [ih, (roleOk_iff c).mpr hc]
    · rw [if_neg hc]
      constructor
      · intro he
        cases he
      · intro hall
        exact absurd ((roleOk_iff c).mp (hall c (List.mem_cons_self c t))) hc

/-- C8: the `GeminiChat` constructor fails exactly when some turn of the
given history has a role other than `user`/`model` (via
`validateHistory`); `clearHistory`, `addHistory` and `setHistory` are
plain assignments: for every input — validated or not — they produce the
corresponding new state and never throw. -/
theorem c8_constructor_validates_mutators_do_not (h h2 : List Content)
    (s : GeminiChatState) (c : Content) :
    ((∃ e, mkGeminiChat h = .error e) ↔ ∃ x ∈ h, roleOk x = false) ∧
      clearHistory s = ⟨[]⟩ ∧
      addHistory s c = ⟨s.history ++ [c]⟩ ∧
      setHistory s h2 = ⟨h2⟩ := by
  refine ⟨?_, rfl, rfl, rfl⟩
  unfold mkGeminiChat
  constructor
  · intro ⟨e, he⟩
    by_cases hv : validateHistory h = .ok ()
    · rw [hv] at he
      cases he
    · have : ¬ ∀ x ∈ h, roleOk x = true := fun hall =>
        hv ((validateHistory_ok_iff h).mpr hall)
      push_neg at this
      obtain ⟨x, hx, hr⟩ := this
      exact ⟨x, hx, by simpa using hr⟩
  · intro ⟨x, hx, hr⟩
    have hv : ¬ validateHistory h = .ok () := fun hok =>
      by simpa [hr] using (validateHistory_ok_iff h).mp hok x hx
    match hveq : validateHistory h with
    | .ok u =>
        cases u
        exact absurd hveq hv
    | .error e =>
        exact ⟨e, rfl⟩

/-- C5: the fallback path is entered only for the interactive Google
login auth type; a session already on the Flash model is never offered a
fallback (hence at most one downgrade); a handler answer other than
`false`/`null` switches the config to the Flash model and sets fallback
mode; a handler answering `false` or `null` leaves the config unchanged
and yields `null`. -/
theorem c5_flash_fallback (auth : Option String) (cfg cfg2 cfg3 cfg4 : ConfigState)
    (hnd : Option (String → String → HandlerRet))
    (f3 f4 : String → String → HandlerRet) (r3 r4 : HandlerRet)
    (hauth : ¬ auth = some loginWithGoogle)
    (hflash : cfg2.model = DEFAULT_GEMINI_FLASH_MODEL)
    (hcur3 : ¬ cfg3.model = DEFAULT_GEMINI_FLASH_MODEL)
    (hf3 : f3 cfg3.model DEFAULT_GEMINI_FLASH_MODEL = r3)
    (hr3f : ¬ r3 = .boolean false) (hr3n : ¬ r3 = .nullv)
    (hr3t : ¬ r3 = .threw)
    (hcur4 : ¬ cfg4.model = DEFAULT_GEMINI_FLASH_MODEL)
    (hf4 : f4 cfg4.model DEFAULT_GEMINI_FLASH_MODEL = r4)
    (hr4 : r4 = .boolean false ∨ r4 = .nullv) :
    handleFlashFallback auth hnd cfg = (none, cfg) ∧
      handleFlashFallback (some loginWithGoogle) hnd cfg2 = (none, cfg2) ∧
      handleFlashFallback (some loginWithGoogle) (some f3) cfg3 =
        (some DEFAULT_GEMINI_FLASH_MODEL,
          { cfg3 with model := DEFAULT_GEMINI_FLASH_MODEL, fallbackMode := true }) ∧
      handleFlashFallback (some loginWithGoogle) (some f4) cfg4 = (none, cfg4) := by
  refine ⟨?_, ?_, ?_, ?_⟩
  · unfold handleFlashFallback
    rw [if_pos hauth]
  · unfold handleFlashFallback
    rw [if_neg (by simp)]
    simp [hflash]
  · unfold handleFlashFallback
    rw [if_neg (by simp)]
    have hne : (cfg3.model == DEFAULT_GEMINI_FLASH_MODEL) = false := by
      simpa using hcur3
    simp only [hne, Bool.false_eq_true, if_false, hf3]
    match r3, hr3f, hr3n, hr3t with
    | .str s, _, _, _ => simp
    | .boolean true, _, _, _ => simp
    | .boolean false, hb, _, _ => exact absurd rfl hb
    | .nullv, _, hn, _ => exact absurd rfl hn
    | .threw, _, _, ht => exact absurd rfl ht
  · unfold handleFlashFallback
    rw [if_neg (by simp)]
    have hne : (cfg4.model == DEFAULT_GEMINI_FLASH_MODEL) = false := by
      simpa using hcur4
    simp only [hne, Bool.false_eq_true, if_false, hf4]
    rcases hr4 with h4 | h4 <;> subst h4 <;> simp [hne]

theorem c5_flash_fallback_witness :
    handleFlashFallback (some "api-key") none ⟨"gemini-2.5-pro", false⟩ =
        (none, ⟨"gemini-2.5-pro", false⟩) ∧
      handleFlashFallback (some loginWithGoogle) none ⟨"gemini-2.5-flash", false⟩ =
        (none, ⟨"gemini-2.5-flash", false⟩) ∧
      handleFlashFallback (some loginWithGoogle)
          (some fun _ _ => .str "accepted") ⟨"gemini-2.5-pro", false⟩ =
        (some DEFAULT_GEMINI_FLASH_MODEL, ⟨DEFAULT_GEMINI_FLASH_MODEL, true⟩) ∧
      handleFlashFallback (some loginWithGoogle)
          (some fun _ _ => .boolean false) ⟨"gemini-2.5-pro", false⟩ =
        (none, ⟨"gemini-2.5-pro", false⟩) :=
  c5_flash_fallback (some "api-key") ⟨"gemini-2.5-pro", false⟩
    ⟨"gemini-2.5-flash", false⟩ ⟨"gemini-2.5-pro", false⟩ ⟨"gemini-2.5-pro", false⟩
    none (fun _ _ => .str "accepted") (fun _ _ => .boolean false)
    (.str "accepted") (.boolean false)
    (by decide) rfl (by decide) rfl (by decide) (by decide) (by decide)
    (by decide) rfl (Or.inl rfl)

/-- C9 counterexample: a `GOAL` termination whose emitted `execution_plan`
is the empty string — a string `JSON.parse` rejects — does not surface the
raw plan text: `emitted_vars['execution_plan'] || null` coerces `""` to
`null`, so `execute` returns the generic failure result ("Failed to create
a plan.") instead of the raw text with an "Invalid JSON response" error,
whatever the parse function does. -/
theorem c9_counterexample :
    planningExecute (fun _ => (none : Option Unit)) (fun _ => "")
        (.ok ⟨.goal, [("execution_plan", "")]⟩) =
      ⟨"Failed to create a plan.", "planning_tool", false, none,
        some "Failed to create a plan."⟩ ∧
      ¬ ("Failed to create a plan." = "") := by
  exact ⟨rfl, by decide⟩

/-- C9 amended: when the planning sub-agent terminates with reason `GOAL`
and its emitted `execution_plan` is a NON-EMPTY string that fails JSON
parsing, `execute` does not throw: it returns the raw plan text as
`returnDisplay` together with a functionResponse carrying `success=false`
and the error `Invalid JSON response` (an empty emitted string is coerced
to null and yields the generic failure result instead). -/
theorem c9_parse_failure_nonfatal {J : Type} (parse : String → Option J)
    (pretty : J → String) (out : SubagentOutput) (plan : String)
    (hreason : out.terminate_reason = .goal)
    (hvar : lookupVar "execution_plan" out.emitted_vars = some plan)
    (hne : ¬ plan = "") (hparse : parse plan = none) :
    planningExecute parse pretty (.ok out) =
      ⟨plan, "planning_tool", false, none, some "Invalid JSON response"⟩ := by
  unfold planningExecute createPlanModel
  have hbeq : (plan == "") = false := by simpa using hne
  simp [hreason, hvar, hbeq, hparse]

theorem c9_parse_failure_nonfatal_witness :
    planningExecute (fun _ => (none : Option Unit)) (fun _ => "")
        (.ok ⟨.goal, [("execution_plan", "not a valid json")]⟩) =
      ⟨"not a valid json", "planning_tool", false, none,
        some "Invalid JSON response"⟩ :=
  c9_parse_failure_nonfatal (fun _ => (none : Option Unit)) (fun _ => "")
    ⟨.goal, [("execution_plan", "not a valid json")]⟩ "not a valid json"
    rfl rfl (by decide) rfl

/-- C2, behavior of the code at the failing input.  First two conjuncts:
when the network call of attempt 0 succeeds but the stream's only chunk is
invalid, `sendMessageStream` returns the lazy stream after a single
network call, with the optimistic user turn still in the history and no
backoff sleep — the invalid-stream `EmptyStreamError` is raised only later,
by `processStreamResponse`'s body while the caller drains the stream, and
the history keeps the optimistic user turn.  Third conjunct: for an error
raised by the network call itself (a 429), the loop does retry twice with
linear backoff, and exhaustion removes the optimistic user turn and raises
the last error.  Fourth conjunct: a non-retryable network error is raised
after a single call, also with rollback. -/
theorem c2_stream_invalid_no_retry_code_behavior :
    sendMessageStream [] (userTextTurn "hi")
        (fun _ => .netOk [{ candidates := some [] }]) =
      ⟨[userTextTurn "hi"], .ok [{ candidates := some [] }], 1, []⟩ ∧
      processStreamResponse [userTextTurn "hi"] [{ candidates := some [] }] =
        .error "Model stream had invalid chunks" ∧
      sendMessageStream [] (userTextTurn "hi")
          (fun _ => .netErr "quota 429 exceeded") =
        ⟨[], .error "quota 429 exceeded", 3, [500, 1000]⟩ ∧
      sendMessageStream [] (userTextTurn "hi") (fun _ => .netErr "boom") =
        ⟨[], .error "boom", 1, []⟩ := by
  exact ⟨by decide, by decide, by decide, by decide⟩

theorem shouldRetry_characterization (m : String) :
    shouldRetrySendMessage m =
      (!(isSchemaDepthError m) && (strIncludes m "429" || has5xx m)) := by
  unfold shouldRetrySendMessage
  by_cases hm : m = ""
  · subst hm
    decide
  · have hbeq : (m == "") = false := by simpa using hm
    simp only [hbeq, Bool.false_eq_true, if_false]
    cases h1 : isSchemaDepthError m <;>
      cases h2 : strIncludes m "429" <;>
      cases h3 : has5xx m <;>
        simp [h1, h2, h3]

/-- C4: in the non-streaming `sendMessage` path a failed request is
retried exactly when its message indicates HTTP 429 or a 5xx status and is
not a schema-depth-exceeded condition (the classifier equals that
predicate for every message); a first-call error the classifier rejects
propagates immediately — one call, no backoff sleep — while a first-call
error it accepts is retried, with the delay doubled for the next wait. -/
theorem c4_sendMessage_retry_classification (m msg1 msg2 : String)
    (res1 res2 : Nat → Except String Unit) (cap d : Nat)
    (h1 : shouldRetrySendMessage msg1 = true) (e1 : res1 0 = .error msg1)
    (h2 : shouldRetrySendMessage msg2 = false) (e2 : res2 0 = .error msg2)
    (hcap : 2 ≤ cap) :
    shouldRetrySendMessage m =
        (!(isSchemaDepthError m) && (strIncludes m "429" || has5xx m)) ∧
      retryWithBackoff shouldRetrySendMessage cap d res2 =
        ⟨.error msg2, 1, []⟩ ∧
      retryWithBackoff shouldRetrySendMessage cap d res1 =
        retryAux shouldRetrySendMessage res1 (cap - 1) 1 (d * 2) [d] := by
  obtain ⟨k, rfl⟩ : ∃ k, cap = k + 2 := ⟨cap - 2, by omega⟩
  refine ⟨shouldRetry_characterization m, ?_, ?_⟩
  · show retryAux shouldRetrySendMessage res2 (k + 2) 0 d [] = _
    rw [retryAux, e2]
    simp [h2]
  · show retryAux shouldRetrySendMessage res1 (k + 2) 0 d [] = _
    rw [retryAux, e1]
    simp [h1]

theorem c4_sendMessage_retry_classification_witness :
    shouldRetrySendMessage "http 502 bad gateway" =
        (!(isSchemaDepthError "http 502 bad gateway") &&
          (strIncludes "http 502 bad gateway" "429" ||
            has5xx "http 502 bad gateway")) ∧
      retryWithBackoff shouldRetrySendMessage 2 1000
          (fun _ => (.error "boom" : Except String Unit)) =
        ⟨.error "boom", 1, []⟩ ∧
      retryWithBackoff shouldRetrySendMessage 2 1000
          (fun _ => (.error "error 429" : Except String Unit)) =
        retryAux shouldRetrySendMessage (fun _ => .error "error 429") 1 1
          (1000 * 2) [1000] :=
  c4_sendMessage_retry_classification "http 502 bad gateway" "error 429"
    "boom" (fun _ => .error "error 429") (fun _ => .error "boom") 2 1000
    (by decide) rfl (by decide) rfl (by decide)

/-- C7: when the model output is empty and the user input is not a
function response (and no side-channel function-call history was
supplied), `recordHistory` appends the empty-parts placeholder model turn
right after the user turn, preserving user/model alternation for the
exchange. -/
theorem c7_empty_output_gets_placeholder (h : List Content) (u : Content)
    (hrole : u.role = some "user") (hfr : isFunctionResponse u = false) :
    recordHistory h u [] none =
      some (h ++ [u, { role := some "model", parts := some [] }]) := by
  unfold recordHistory
  have hIT : isTextContent (some u) = false := by
    simp [isTextContent, hrole]
  have hcons : consolidate [({ role := some "model", parts := some [] } : Content)] =
      [{ role := some "model", parts := some [] }] := rfl
  simp [hfr, hcons, List.getLast?_concat, hIT]

theorem c7_empty_output_gets_placeholder_witness :
    recordHistory [userTextTurn "z"] (userTextTurn "q") [] none =
      some ([userTextTurn "z"] ++
        [userTextTurn "q", { role := some "model", parts := some [] }]) :=
  c7_empty_output_gets_placeholder [userTextTurn "z"] (userTextTurn "q")
    rfl (by decide)

theorem recordHistory_thought_only (h : List Content) (u : Content)
    (mo : List Content) (hmo : ¬ mo = [])
    (hth : ∀ c ∈ mo, isThoughtContent (some c) = true) :
    recordHistory h u mo none = some (h ++ [u]) := by
  unfold recordHistory
  have hfilt : mo.filter (fun c => !isThoughtContent (some c)) = [] :=
    List.filter_eq_nil_iff.mpr (fun c hc => by simp [hth c hc])
  have hne : mo.isEmpty = false := by
    cases mo with
    | nil => exact absurd rfl hmo
    | cons a t => rfl
  rw [hfilt]
  simp [hne, consolidate]

/-- C10: a non-empty model output consisting only of thought content
causes no model turn to be recorded at all — not even the placeholder —
so the history ends with the user turn, and a second such exchange leaves
two consecutive user turns in the comprehensive history. -/
theorem c10_thought_only_output_no_model_turn (h : List Content)
    (u u2 : Content) (mo mo2 : List Content)
    (hmo : ¬ mo = []) (hth : ∀ c ∈ mo, isThoughtContent (some c) = true)
    (hmo2 : ¬ mo2 = []) (hth2 : ∀ c ∈ mo2, isThoughtContent (some c) = true) :
    recordHistory h u mo none = some (h ++ [u]) ∧
      recordHistory (h ++ [u]) u2 mo2 none = some (h ++ [u, u2]) := by
  refine ⟨recordHistory_thought_only h u mo hmo hth, ?_⟩
  rw [recordHistory_thought_only (h ++ [u]) u2 mo2 hmo2 hth2]
  simp

theorem c10_thought_only_output_no_model_turn_witness :
    recordHistory [] (userTextTurn "q")
        [{ role := some "model", parts := some [{ thought := some true }] }]
        none = some ([] ++ [userTextTurn "q"]) ∧
      recordHistory ([] ++ [userTextTurn "q"]) (userTextTurn "r")
          [{ role := some "model", parts := some [{ thought := some true }] }]
          none = some ([] ++ [userTextTurn "q", userTextTurn "r"]) :=
  c10_thought_only_output_no_model_turn [] (userTextTurn "q")
    (userTextTurn "r")
    [{ role := some "model", parts := some [{ thought := some true }] }]
    [{ role := some "model", parts := some [{ thought := some true }] }]
    (by decide) (by decide) (by decide) (by decide)

theorem isThoughtContent_textTurn (s : String) :
    isThoughtContent (some (textTurn s)) = false := rfl

theorem isTextContent_textTurn (s : String) (hs : ¬ s = "") :
    isTextContent (some (textTurn s)) = true := by
  simp [isTextContent, textTurn, textPart, hs]

theorem appendTextToFirst_textTurn (s t : String) :
    appendTextToFirst (textTurn s) (textTurn t) = textTurn (s ++ t) := rfl

theorem consolidateStep_textTurn_merge (s t : String) (hs : ¬ s = "")
    (ht : ¬ t = "") :
    consolidateStep [textTurn s] (textTurn t) = [textTurn (s ++ t)] := by
  unfold consolidateStep
  simp [isThoughtContent_textTurn, isTextContent_textTurn s hs,
    isTextContent_textTurn t ht, appendTextToFirst_textTurn]

theorem consolidate_fold_textTurns (texts : List String) : ∀ s : String,
    ¬ s = "" → (∀ x ∈ texts, ¬ x = "") →
    (texts.map textTurn).foldl consolidateStep [textTurn s] =
      [textTurn (s ++ concatAll texts)] := by
  induction texts with
  | nil =>
    intro s _ _
    simp [concatAll, String.append_empty]
  | cons t rest ih =>
    intro s hs hall
    have ht : ¬ t = "" := hall t (List.mem_cons_self t rest)
    simp only [List.map_cons, List.foldl_cons]
    rw [consolidateStep_textTurn_merge s t hs ht,
      ih (s ++ t) (string_append_ne_empty s t hs)
        (fun x hx => hall x (List.mem_cons_of_mem t hx))]
    rw [concatAll, ← String.append_assoc]

theorem consolidate_textTurns (texts : List String) (hne : ¬ texts = [])
    (hall : ∀ x ∈ texts, ¬ x = "") :
    consolidate (texts.map textTurn) = [textTurn (concatAll texts)] := by
  match texts, hne with
  | t :: rest, _ =>
    have ht : ¬ t = "" := hall t (List.mem_cons_self t rest)
    show (textTurn t :: rest.map textTurn).foldl consolidateStep [] = _
    rw [List.foldl_cons]
    have h0 : consolidateStep [] (textTurn t) = [textTurn t] := rfl
    rw [h0, consolidate_fold_textTurns rest t ht
      (fun x hx => hall x (List.mem_cons_of_mem t hx))]
    rfl

theorem concatAll_ne_empty (t : String) (rest : List String)
    (ht : ¬ t = "") : ¬ concatAll (t :: rest) = "" := by
  rw [concatAll]
  exact string_append_ne_empty t (concatAll rest) ht

theorem textTurn_role_isSome (s : String) : (textTurn s).role.isSome = true :=
  rfl

/-- C6: whenever `recordHistory` merges pure-text model turns — adjacent
text turns of the new output into one turn, and (when no side-channel
function-call history was spliced in) the new output's first text turn
into an immediately preceding pure-text model turn — the merged turn's
text is exactly the concatenation of the original texts, verbatim, in
their original order. -/
theorem c6_text_merge_concatenates (h : List Content) (u : Content)
    (texts : List String) (t0 : String)
    (hne : ¬ texts = []) (hall : ∀ s ∈ texts, ¬ s = "")
    (hurole : u.role = some "user") (ht0 : ¬ t0 = "") :
    recordHistory h u (texts.map textTurn) none =
        some (h ++ [u, textTurn (concatAll texts)]) ∧
      recordHistory h (textTurn t0) (texts.map textTurn) none =
        some (h ++ [textTurn (t0 ++ concatAll texts)]) := by
  have hfilt : (texts.map textTurn).filter
      (fun c => !isThoughtContent (some c)) = texts.map textTurn := by
    refine List.filter_eq_self.mpr (fun c hc => ?_)
    obtain ⟨x, _, rfl⟩ := List.mem_map.mp hc
    simp [isThoughtContent_textTurn]
  have hmapne : (texts.map textTurn).isEmpty = false := by
    cases texts with
    | nil => exact absurd rfl hne
    | cons a t => rfl
  have hroles : (texts.map textTurn).all (fun c => c.role.isSome) = true := by
    refine List.all_eq_true.mpr (fun c hc => ?_)
    obtain ⟨x, _, rfl⟩ := List.mem_map.mp hc
    rfl
  have hcons := consolidate_textTurns texts hne hall
  obtain ⟨t, rest, rfl⟩ : ∃ a l, texts = a :: l := by
    cases texts with
    | nil => exact absurd rfl hne
    | cons a l => exact ⟨a, l, rfl⟩
  have hcne : ¬ concatAll (t :: rest) = "" :=
    concatAll_ne_empty t rest (hall t (List.mem_cons_self t rest))
  simp only [List.map_cons] at hcons
  constructor
  · unfold recordHistory
    rw [hfilt]
    have hIT : isTextContent (some u) = false := by
      simp [isTextContent, hurole]
    simp [textTurn_role_isSome, hcons, List.getLast?_concat, hIT]
  · unfold recordHistory
    rw [hfilt]
    have hIT0 : isTextContent (some (textTurn t0)) = true :=
      isTextContent_textTurn t0 ht0
    have hITc : isTextContent (some (textTurn (concatAll (t :: rest)))) = true :=
      isTextContent_textTurn _ hcne
    simp [textTurn_role_isSome, hcons, List.getLast?_concat, hIT0, hITc,
      List.dropLast_concat, appendTextToFirst_textTurn, concatAll]
    exact isTextContent_textTurn _ (by rw [← concatAll]; exact hcne)

theorem c6_text_merge_concatenates_witness :
    recordHistory [] (userTextTurn "q") (["ab", "cd"].map textTurn) none =
        some ([] ++ [userTextTurn "q", textTurn (concatAll ["ab", "cd"])]) ∧
      recordHistory [] (textTurn "pre") (["ab", "cd"].map textTurn) none =
        some ([] ++ [textTurn ("pre" ++ concatAll ["ab", "cd"])]) :=
  c6_text_merge_concatenates [] (userTextTurn "q") ["ab", "cd"] "pre"
    (by decide) (by decide) rfl (by decide)

theorem part_valid_spec_eq (p : Part) :
    (!(partKeyCount p == 0) &&
      !(p.thought.getD false == false && p.text == some "")) = isValidPart p := by
  unfold isValidPart
  cases h : p.thought.getD false <;> simp [h]

theorem all_and_distrib (f g : α → Bool) (l : List α) :
    (l.all f && l.all g) = l.all (fun x => f x && g x) := by
  induction l with
  | nil => rfl
  | cons a l ih =>
    simp only [List.all_cons, ← ih]
    cases f a <;> cases g a <;> cases l.all f <;> cases l.all g <;> rfl

theorem isValidContentSpec_eq (c : Content) :
    isValidContentSpec c = isValidContent c := by
  unfold isValidContentSpec isValidContent
  cases hp : c.parts with
  | none => rfl
  | some l =>
    simp only [Option.getD_some]
    have h1 : (l.length == 0) = l.isEmpty := by cases l <;> rfl
    rw [Bool.and_assoc, all_and_distrib, h1]
    have h2 : (fun p => !(partKeyCount p == 0) &&
        !(p.thought.getD false == false && p.text == some "")) = isValidPart :=
      funext part_valid_spec_eq
    rw [h2]

theorem isValidContentSpec_funext : isValidContentSpec = isValidContent :=
  funext isValidContentSpec_eq

theorem curatedSpec_split_user (t : List Content) :
    curatedSpec t =
      t.takeWhile (fun x => x.role == some "user") ++
        curatedSpec (t.dropWhile (fun x => x.role == some "user")) := by
  cases t with
  | nil => simp
  | cons x t' =>
    by_cases hx : x.role = some "user"
    · have hb : (x.role == some "user") = true := by simp [hx]
      rw [List.takeWhile_cons, List.dropWhile_cons, hb]
      simp only [if_true]
      have hpred : (fun y : Content => y.role == x.role) =
          (fun y => y.role == some "user") := by
        funext y
        rw [hx]
      rw [curatedSpec_cons x t', hpred]
      have hkeep : keepRun (x :: t'.takeWhile (fun y => y.role == some "user")) =
          x :: t'.takeWhile (fun y => y.role == some "user") := by
        unfold keepRun
        rw [if_neg]
        simp [hx]
      rw [hkeep, List.cons_append]
    · have hb : (x.role == some "user") = false := by simp [hx]
      rw [List.takeWhile_cons, List.dropWhile_cons, hb]
      simp

theorem curatedSpec_user_cons (c : Content) (t : List Content)
    (hu : c.role = some "user") :
    curatedSpec (c :: t) = c :: curatedSpec t := by
  rw [curatedSpec_cons c t]
  have hpred : (fun x : Content => x.role == c.role) =
      (fun x => x.role == some "user") := by
    funext x
    rw [hu]
  rw [hpred]
  have hkeep : keepRun (c :: t.takeWhile (fun x => x.role == some "user")) =
      c :: t.takeWhile (fun x => x.role == some "user") := by
    unfold keepRun
    rw [if_neg]
    simp [hu]
  rw [hkeep, List.cons_append, ← curatedSpec_split_user t]

theorem extract_eq_curatedSpec_aux : ∀ (n : Nat) (h : List Content),
    h.length ≤ n → (∀ x ∈ h, roleOk x = true) →
    extractCuratedHistory h = some (curatedSpec h) := by
  intro n
  induction n with
  | zero =>
    intro h hlen _
    have h0 : h = [] := List.length_eq_zero.mp (Nat.le_zero.mp hlen)
    subst h0
    rw [extract_nil, curatedSpec_nil]
  | succ n ih =>
    intro h0 hlen hroles
    match h0, hlen, hroles with
    | [], _, _ => rw [extract_nil, curatedSpec_nil]
    | c :: t, hlen, hroles =>
      have hc : c.role = some "user" ∨ c.role = some "model" :=
        (roleOk_iff c).mp (hroles c (List.mem_cons_self c t))
      have hlent : t.length ≤ n := by
        simp only [List.length_cons] at hlen
        omega
      rcases hc with hu | hm
      · rw [extract_user_cons c t hu,
          ih t hlent (fun x hx => hroles x (List.mem_cons_of_mem c hx)),
          curatedSpec_user_cons c t hu]
        rfl
      · rw [extract_model_cons c t hm]
        have hrest_len : (t.dropWhile (fun x => x.role == some "model")).length ≤ n :=
          le_trans (length_dropWhile_le' _ t) hlent
        have hrest_roles :
            ∀ x ∈ t.dropWhile (fun x => x.role == some "model"), roleOk x = true :=
          fun x hx =>
            hroles x (List.mem_cons_of_mem c (mem_of_mem_dropWhile _ t x hx))
        rw [ih _ hrest_len hrest_roles]
        have hpred : (fun x : Content => x.role == c.role) =
            (fun x => x.role == some "model") := by
          funext x
          rw [hm]
        rw [curatedSpec_cons c t, hpred]
        have hallmodel : ((c :: t.takeWhile (fun x => x.role == some "model")).all
            (fun x => x.role == some "model")) = true := by
          rw [List.all_cons]
          have h1 : (c.role == some "model") = true := by simp [hm]
          rw [h1, Bool.true_and]
          exact List.all_eq_true.mpr
            (fun x hx => List.mem_takeWhile_imp
              (p := fun (y : Content) => y.role == some "model") (l := t) hx)
        unfold keepRun
        rw [if_pos hallmodel, isValidContentSpec_funext]
        rfl

/-- C3: for every comprehensive history over the data model's roles
(`user`/`model`), `extractCuratedHistory` returns exactly the
specification's curated view: every user turn, plus each maximal run of
consecutive model turns all of whose members are valid — validity per the
spec's invalidity condition (`isValidContentSpec`) — in the original
order, with runs containing any invalid turn dropped entirely
(`curatedSpec`). -/
theorem c3_extract_equals_curatedSpec (h : List Content)
    (hroles : h.all roleOk = true) :
    extractCuratedHistory h = some (curatedSpec h) :=
  extract_eq_curatedSpec_aux h.length h le_rfl (List.all_eq_true.mp hroles)

theorem c3_extract_equals_curatedSpec_witness :
    ([userTextTurn "a", { role := some "model", parts := some [textPart ""] },
        userTextTurn "b", textTurn "ok", textTurn "ok2"].all roleOk = true) ∧
      extractCuratedHistory
          [userTextTurn "a", { role := some "model", parts := some [textPart ""] },
            userTextTurn "b", textTurn "ok", textTurn "ok2"] =
        some (curatedSpec
          [userTextTurn "a", { role := some "model", parts := some [textPart ""] },
            userTextTurn "b", textTurn "ok", textTurn "ok2"]) :=
  ⟨by decide, c3_extract_equals_curatedSpec _ (by decide)⟩

/-- C1 counterexample: the comprehensive history consisting of one valid
model turn uses only `user`/`model` roles, yet its curated history starts
with a model turn at position 0, refuting the claim as stated (the second
conjunct likewise fails, e.g. on `[user, user]` or on a valid model run of
length two, which survive curation unchanged). -/
theorem c1_counterexample :
    ¬ (∀ h : List Content, h.all roleOk = true →
        ∀ l, extractCuratedHistory h = some l →
          (headIsUserOrNil l = true ∧ noTwoAdjacentSameRole l = true)) := by
  intro hclaim
  have heval : extractCuratedHistory [textTurn "hi"] = some [textTurn "hi"] := by
    rw [extract_model_cons (textTurn "hi") [] rfl]
    simp only [List.dropWhile_nil, List.takeWhile_nil]
    rw [extract_nil]
    rfl
  have h1 := hclaim [textTurn "hi"] (by decide) [textTurn "hi"] heval
  exact absurd h1.1 (by decide)

theorem noTwoModel_cons_of (a : Content) (l : List Content)
    (hl : noTwoModel l = true)
    (h : (a.role == some "model") = false ∨ headIsUserOrNil l = true) :
    noTwoModel (a :: l) = true := by
  cases l with
  | nil => rfl
  | cons b l' =>
    rcases h with h | h
    · simp [noTwoModel, h, hl]
    · have hb : (b.role == some "model") = false := by
        simpa [headIsUserOrNil] using h
      simp [noTwoModel, hb, hl]

theorem extract_alt_aux : ∀ (n : Nat) (h : List Content), h.length ≤ n →
    ((alternatesRoles true h = true →
        ∃ l, extractCuratedHistory h = some l ∧ noTwoModel l = true ∧
          headIsUserOrNil l = true) ∧
      (alternatesRoles false h = true →
        ∃ l, extractCuratedHistory h = some l ∧ noTwoModel l = true)) := by
  intro n
  induction n with
  | zero =>
    intro h hlen
    have h0 : h = [] := List.length_eq_zero.mp (Nat.le_zero.mp hlen)
    subst h0
    exact ⟨fun _ => ⟨[], extract_nil, rfl, rfl⟩,
      fun _ => ⟨[], extract_nil, rfl⟩⟩
  | succ n ih =>
    intro h0 hlen
    match h0, hlen with
    | [], _ =>
        exact ⟨fun _ => ⟨[], extract_nil, rfl, rfl⟩,
          fun _ => ⟨[], extract_nil, rfl⟩⟩
    | c :: t, hlen =>
      have hlent : t.length ≤ n := by
        simp only [List.length_cons] at hlen
        omega
      constructor
      · intro halt
        rw [alternatesRoles] at halt
        rw [Bool.and_eq_true] at halt
        obtain ⟨hcu, halt'⟩ := halt
        have hu : c.role = some "user" := by simpa using hcu
        have halt'' : alternatesRoles false t = true := by simpa using halt'
        obtain ⟨l, hel, hnm⟩ := (ih t hlent).2 halt''
        refine ⟨c :: l, ?_, ?_, ?_⟩
        · rw [extract_user_cons c t hu, hel]
          rfl
        · exact noTwoModel_cons_of c l hnm (Or.inl (by simp [hu]))
        · simp [headIsUserOrNil, hu]
      · intro halt
        rw [alternatesRoles] at halt
        rw [Bool.and_eq_true] at halt
        obtain ⟨hcm, halt'⟩ := halt
        have hm : c.role = some "model" := by simpa using hcm
        have halt'' : alternatesRoles true t = true := by simpa using halt'
        have hhead : ∀ y ∈ t.head?, ((fun x : Content => x.role == some "model") y) = false := by
          cases t with
          | nil =>
            intro y hy
            simp at hy
          | cons x t' =>
            intro y hy
            have hyx : x = y := by simpa using hy
            rw [alternatesRoles] at halt''
            rw [Bool.and_eq_true] at halt''
            obtain ⟨hx, _⟩ := halt''
            have hxu : x.role = some "user" := by simpa using hx
            subst hyx
            simp [hxu]
        obtain ⟨l, hel, hnm, hh⟩ := (ih t hlent).1 halt''
        rw [extract_model_cons c t hm,
          takeWhile_head_false _ t hhead, dropWhile_head_false _ t hhead, hel]
        refine ⟨(if (c :: ([] : List Content)).all isValidContent
            then c :: ([] : List Content) else []) ++ l, rfl, ?_⟩
        by_cases hv : (c :: ([] : List Content)).all isValidContent = true
        · rw [if_pos hv]
          exact noTwoModel_cons_of c l hnm (Or.inr hh)
        · rw [if_neg hv]
          simpa using hnm

/-- C1 amended: for every comprehensive history whose roles strictly
alternate `user, model, user, ...` beginning with a user turn (all roles
being `user`/`model`), the curated history computed by
`extractCuratedHistory` never has a model turn at position 0 and never
contains two consecutive `model` turns; it may, however, contain two
consecutive `user` turns, namely where an invalid model turn was dropped. -/
theorem c1_curated_no_leading_model_no_double_model (h : List Content)
    (halt : alternatesRoles true h = true) :
    ∃ l, extractCuratedHistory h = some l ∧ noTwoModel l = true ∧
      headIsUserOrNil l = true :=
  (extract_alt_aux h.length h le_rfl).1 halt

theorem c1_curated_no_leading_model_no_double_model_witness :
    alternatesRoles true
        [userTextTurn "a", { role := some "model", parts := some [textPart ""] },
          userTextTurn "b", textTurn "ok"] = true ∧
      ∃ l, extractCuratedHistory
          [userTextTurn "a", { role := some "model", parts := some [textPart ""] },
            userTextTurn "b", textTurn "ok"] = some l ∧
        noTwoModel l = true ∧ headIsUserOrNil l = true :=
  ⟨by decide, c1_curated_no_leading_model_no_double_model _ (by decide)⟩

end GeminiCli
